import Mathlib

/-!
# Verification of the Wardrobe AI Stylist core logic

Shallow embedding of the occasion matcher (`match_occasion`), the wardrobe
filter (`get_matching_items` together with `is_item_forbidden` and the
dresses/sarees classification inside `get_styling_advice`), and the outfit
repair pass (`fix_complete_outfit_bottom`) from `backend/main.py`.

Python strings are modelled as `List Char`.  The two regular expressions used
by the repair pass, `Top:\s*(.+)` and `Bottom:\s*(.+)` with `re.IGNORECASE`,
are modelled operationally: `\s*` is a greedy, backtracking run of whitespace
(which may cross newlines) and `.+` is a greedy nonempty run of
non-newline characters.  `re.search` is leftmost match; `re.sub` (with no
count) replaces every non-overlapping match, continuing after each
replacement.  Replacement strings are inserted literally (the replacement
texts arising here are label prefixes plus a previously extracted value; we
do not model `re.sub`'s escape processing of backslashes inside a
replacement).
-/

namespace Wardrobe

abbrev Str := List Char

/-- Whitespace class: the characters matched by Python's `\s` (and stripped
by `str.strip`) in the ASCII range. -/
def isPySpace (c : Char) : Bool :=
  c == ' ' || c == '\t' || c == '\n' || c == '\r' || c == '\x0b' || c == '\x0c'

/-- ASCII lowercasing of one character, as `str.lower` acts on the inputs
appearing in this development. -/
def lowerCh (c : Char) : Char :=
  if 'A' ≤ c ∧ c ≤ 'Z' then Char.ofNat (c.toNat + 32) else c

/-- Python `str.lower`. -/
def lowerStr (s : Str) : Str := s.map lowerCh

/-- Python `str.strip()`: remove leading and trailing whitespace. -/
def pystrip (s : Str) : Str :=
  ((s.dropWhile isPySpace).reverse.dropWhile isPySpace).reverse

/-- Python's substring test `needle in hay` (note `"" in s` is `True`). -/
def containsSub (needle : Str) : Str → Bool
  | [] => needle.isPrefixOf []
  | c :: t => needle.isPrefixOf (c :: t) || containsSub needle t

/-- Case-insensitive literal prefix test: the pattern literal `lit` (given in
lowercase) matches at the head of `s` under `re.IGNORECASE`. -/
def ciPrefixAt (lit : Str) (s : Str) : Bool :=
  lit.isPrefixOf (lowerStr s)

/-- Given the text `r` following the matched literal, pick the number of
characters consumed by a greedy, backtracking `\s*` such that `.+` can then
match: the largest `k` not exceeding the whitespace prefix of `r` for which
`r` has a non-newline character at index `k`.  `none` when `\s*(.+)` cannot
match at all (i.e. `r` is a possibly empty run of newlines). -/
def findK (r : Str) : Option Nat :=
  let w := (r.takeWhile isPySpace).length
  if w < r.length then some w
  else
    match (r.reverse.dropWhile (fun c => c == '\n')).length with
    | 0 => none
    | Nat.succ m => some m

/-- Attempt to match `lit\s*(.+)` (case-insensitive on `lit`) at the head of
`s`.  On success returns the total number of characters consumed and the text
captured by the group `(.+)`. -/
def matchAt (lit : Str) (s : Str) : Option (Nat × Str) :=
  if ciPrefixAt lit s then
    let r := s.drop lit.length
    match findK r with
    | some k =>
        let g := (r.drop k).takeWhile (fun c => c != '\n')
        some (lit.length + k + g.length, g)
    | none => none
  else none

/-- `re.search`: leftmost match of `lit\s*(.+)` in `s`; returns the start
index, the number of characters consumed and the captured group. -/
def findMatch (lit : Str) : Str → Option (Nat × Nat × Str)
  | [] => none
  | c :: t =>
    match matchAt lit (c :: t) with
    | some (n, g) => some (0, n, g)
    | none => (findMatch lit t).map (fun p => (p.1 + 1, p.2.1, p.2.2))

/-- The captured group of the first match, or the empty string when there is
no match — mirroring `m.group(1) if m else ""`. -/
def extractVal (lit : Str) (s : Str) : Str :=
  match findMatch lit s with
  | some (_, _, g) => g
  | none => []

/-- Fuel-driven worker for `subAll`; the fuel bounds the number of scanning
steps and is instantiated with the length of the string. -/
def subAllF (lit repl : Str) : Nat → Str → Str
  | _, [] => []
  | 0, s => s
  | Nat.succ f, c :: t =>
    match matchAt lit (c :: t) with
    | some (n, _) => repl ++ subAllF lit repl f ((c :: t).drop n)
    | none => c :: subAllF lit repl f t

/-- `re.sub(pattern, repl, s)` with the pattern `lit\s*(.+)` (case-insensitive
on `lit`): replace every non-overlapping match, scanning left to right and
continuing after each replacement. -/
def subAll (lit repl : Str) (s : Str) : Str :=
  subAllF lit repl s.length s

/-! ## The outfit repair pass (`fix_complete_outfit_bottom`) -/

/-- Pattern literal of `Top:\s*(.+)`. -/
def topLit : Str := "top:".data

/-- Pattern literal of `Bottom:\s*(.+)`. -/
def botLit : Str := "bottom:".data

/-- The `complete_outfit_keywords` list of `fix_complete_outfit_bottom`. -/
def completeOutfitKeywords : List Str :=
  ["saree".data, "sari".data, "set".data, "lehenga".data, "anarkali".data,
   "sharara".data, "suit".data, "chudi".data, "salwar".data, "dress".data,
   "gown".data, "frock".data, "maxi".data]

/-- The first extracted, stripped `Top:` value of a text
(`top_match.group(1).strip() if top_match else ""`). -/
def topItemOf (s : Str) : Str := pystrip (extractVal topLit s)

/-- The first extracted, stripped `Bottom:` value of a text. -/
def bottomItemOf (s : Str) : Str := pystrip (extractVal botLit s)

/-- `bottom_is_complete_outfit`: some complete-outfit keyword occurs in the
lowercased extracted Bottom value. -/
def bottomComplete (s : Str) : Bool :=
  completeOutfitKeywords.any (fun k => containsSub k (lowerStr (bottomItemOf s)))

/-- `top_is_complete_outfit`: some complete-outfit keyword occurs in the
lowercased extracted Top value. -/
def topComplete (s : Str) : Bool :=
  completeOutfitKeywords.any (fun k => containsSub k (lowerStr (topItemOf s)))

/-- The lowercased extracted Top value reads "none needed" or "none". -/
def topNoneish (s : Str) : Bool :=
  lowerStr (topItemOf s) == "none needed".data || lowerStr (topItemOf s) == "none".data

/-- Replacement text of FIX 1's first substitution: `f'Top: {bottom_item}'`. -/
def topSwapRepl (s : Str) : Str := "Top: ".data ++ bottomItemOf s

/-- Replacement text forcing the Bottom slot empty: `'Bottom: None needed'`. -/
def bottomNoneRepl : Str := "Bottom: None needed".data

/-- Replacement text of FIX 4: `'Top: (Please select a top item)'`. -/
def topPlaceholderRepl : Str := "Top: (Please select a top item)".data

/-- `fix_complete_outfit_bottom` from `backend/main.py` (lines 547-622):
extract the first `Top:`/`Bottom:` values, then

* FIX 1: if the Bottom value is a complete outfit and the Top value is
  "none needed"/"none" or empty, substitute every `Top:` match with
  `Top: {bottom_item}` and every `Bottom:` match with `Bottom: None needed`
  and return;
* FIX 2: if the Bottom value is a complete outfit, substitute every
  `Bottom:` match with `Bottom: None needed`;
* FIX 3: if the (originally extracted) Top value is a complete outfit,
  substitute every `Bottom:` match with `Bottom: None needed`;
* FIX 4: if the (originally extracted) Top value reads "none needed" or
  "none", substitute every `Top:` match with the placeholder line. -/
def fix_complete_outfit_bottom (s : Str) : Str :=
  if bottomComplete s && (topNoneish s || topItemOf s == []) then
    subAll botLit bottomNoneRepl (subAll topLit (topSwapRepl s) s)
  else
    let s1 := if bottomComplete s then subAll botLit bottomNoneRepl s else s
    let s2 := if topComplete s then subAll botLit bottomNoneRepl s1 else s1
    if topNoneish s then subAll topLit topPlaceholderRepl s2 else s2

/-! ## Occasion rules and the occasion matcher -/

/-- One entry of `occasion_rules.json`: keyword list, the four
`allowed_categories` lists, and the `forbidden_categories` list.  The
`style_notes` field is only interpolated into the prompt text and is not
modelled. -/
structure ORule where
  keywords : List Str
  tops : List Str
  bottoms : List Str
  shoes : List Str
  accessories : List Str
  forbidden : List Str
  deriving DecidableEq

/-- The four slot names keyed by `allowed_categories`. -/
inductive Slot
  | tops
  | bottoms
  | shoes
  | accessories
  deriving DecidableEq

/-- `occasion_rules["allowed_categories"].get(category_type, [])`. -/
def allowedFor (r : ORule) : Slot → List Str
  | Slot.tops => r.tops
  | Slot.bottoms => r.bottoms
  | Slot.shoes => r.shoes
  | Slot.accessories => r.accessories

/-- The whole occasion configuration: named occasions in configuration
iteration order plus the designated default occasion name
(`OCCASION_RULES.get("default_occasion", "casual")`). -/
structure OccTable where
  occasions : List (Str × ORule)
  default_occasion : Str

/-- `match_occasion` from `backend/main.py` (lines 67-79): return the first
occasion, in configuration order, having a keyword that occurs in the
lowercased input; otherwise look the default occasion up in the table.
`none` models the `KeyError` raised when the default name is absent. -/
def match_occasion (userInput : Str) (t : OccTable) : Option (Str × ORule) :=
  match t.occasions.find? (fun p =>
      p.2.keywords.any (fun k => containsSub k (lowerStr userInput))) with
  | some p => some p
  | none => t.occasions.find? (fun p => p.1 == t.default_occasion)

/-- Modelled from the spec: "return the first occasion whose keyword set
contains a case-insensitive substring match against the input; if none
match, return the configured default occasion".  The case-insensitive
substring test lowercases both the keyword and the input. -/
def spec_match_occasion (userInput : Str) (t : OccTable) : Option (Str × ORule) :=
  match t.occasions.find? (fun p =>
      p.2.keywords.any (fun k => containsSub (lowerStr k) (lowerStr userInput))) with
  | some p => some p
  | none => t.occasions.find? (fun p => p.1 == t.default_occasion)

/-! ## The wardrobe filter -/

/-- One wardrobe snapshot entry: the fields of the closet rows that
`get_styling_advice` reads (`item['name']`, `item['category']`). -/
structure WItem where
  name : Str
  cat : Str
  deriving DecidableEq

/-- The keys of `items_by_category` in first-insertion order: the stripped
categories of the closet, deduplicated keeping first occurrences. -/
def keysOf : List WItem → List Str
  | [] => []
  | e :: t => pystrip e.cat :: (keysOf t).filter (fun k => k ≠ pystrip e.cat)

/-- The name list grouped under the stripped-category key `k`. -/
def groupFor (c : List WItem) (k : Str) : List Str :=
  (c.filter (fun e => pystrip e.cat == k)).map (fun e => e.name)

/-- `items_by_category`: stripped category keys in insertion order, each with
the names of the closet entries in that category, in closet order. -/
def itemsByCategory (c : List WItem) : List (Str × List Str) :=
  (keysOf c).map (fun k => (k, groupFor c k))

/-- `is_item_forbidden` (lines 374-385): some forbidden descriptor occurs,
lowercased, in the lowercased item name or in the lowercased (stripped)
category. -/
def is_item_forbidden (r : ORule) (name cat : Str) : Bool :=
  r.forbidden.any (fun f =>
    containsSub (lowerStr f) (lowerStr name) || containsSub (lowerStr f) (lowerStr cat))

/-- The loose allowed-descriptor test of `get_matching_items`: some allowed
descriptor for the slot occurs, lowercased, in the lowercased item name or
lowercased category. -/
def slotAllowed (r : ORule) (slot : Slot) (name cat : Str) : Bool :=
  (allowedFor r slot).any (fun a =>
    containsSub (lowerStr a) (lowerStr name) || containsSub (lowerStr a) (lowerStr cat))

/-- `get_matching_items` (lines 388-410): walk the grouped wardrobe, skip
forbidden items, keep an item when it matches an allowed descriptor or when
the slot's allowed list is empty.  The code finally shuffles the list in
place; the shuffle is a permutation, so membership and occurrence counts —
the subjects of every claim below — are unaffected, and we model the
pre-shuffle list. -/
def get_matching_items (r : ORule) (c : List WItem) (slot : Slot) : List Str :=
  (itemsByCategory c).flatMap (fun p =>
    p.2.filter (fun n =>
      !is_item_forbidden r n p.1 &&
        (slotAllowed r slot n p.1 || (allowedFor r slot).isEmpty)))

/-- The dress-type category test of `get_styling_advice` (line 429). -/
def isDressCat (cat : Str) : Bool :=
  ["dress".data, "gown".data, "frock".data, "set".data, "suit".data].any
    (fun d => containsSub d (lowerStr cat))

/-- The saree-type category test of `get_styling_advice` (line 431). -/
def isSareeCat (cat : Str) : Bool :=
  containsSub "saree".data (lowerStr cat) || containsSub "sari".data (lowerStr cat)

/-- `all_dresses` (lines 419-432): non-forbidden items whose stripped
category contains a dress keyword. -/
def allDresses (r : ORule) (c : List WItem) : List Str :=
  (itemsByCategory c).flatMap (fun p =>
    p.2.filter (fun n => !is_item_forbidden r n p.1 && isDressCat p.1))

/-- `all_sarees` (lines 419-432): non-forbidden items whose stripped category
contains "saree" or "sari" — but, because of the `elif`, only when the
category contains no dress keyword. -/
def allSarees (r : ORule) (c : List WItem) : List Str :=
  (itemsByCategory c).flatMap (fun p =>
    p.2.filter (fun n => !is_item_forbidden r n p.1 && !isDressCat p.1 && isSareeCat p.1))

/-! ## Canonical generated texts

The prompt instructs the generator to answer with a single block containing
one `Top:` line and one `Bottom:` line.  `canon P v M w Q` is the canonical
shape of such a text: arbitrary text `P`, the Top line with value `v`,
arbitrary text `M`, the Bottom line with value `w`, arbitrary text `Q`.
The side conditions `labelFree` (no case-insensitive occurrence of either
label) and `valueOk` (a nonempty, stripped, newline-free, label-free value)
describe the well-formed instances the repair pass is designed for. -/

/-- A canonical generated text: one Top line and one Bottom line. -/
def canon (P v M w Q : Str) : Str :=
  P ++ "Top: ".data ++ v ++ '\n' :: (M ++ "Bottom: ".data ++ w ++ '\n' :: Q)

/-- No case-insensitive occurrence of `top:` or `bottom:`. -/
def labelFree (x : Str) : Prop :=
  containsSub topLit (lowerStr x) = false ∧ containsSub botLit (lowerStr x) = false

/-- A well-formed slot value: nonempty, stripped, newline-free and
label-free. -/
def valueOk (x : Str) : Prop :=
  x ≠ [] ∧ pystrip x = x ∧ (∀ c ∈ x, (c == '\n') = false) ∧ labelFree x

/-- The well-formedness side conditions of a canonical text: the three
free-text segments are label-free and end cleanly, the two values are
well-formed. -/
def canonOk (P v M w Q : Str) : Prop :=
  labelFree P ∧ valueOk v ∧ labelFree M ∧ valueOk w ∧ labelFree Q

/-- Whether no match of `lit\s*(.+)` starts anywhere in `s`. -/
def noMatchAll (lit s : Str) : Prop :=
  ∀ i : Nat, ciPrefixAt lit (s.drop i) = false

/-- Whether no match of `lit\s*(.+)` starts inside the prefix `x` of
`x ++ y`. -/
def spanFree (lit x y : Str) : Prop :=
  ∀ i : Nat, i < x.length → ciPrefixAt lit ((x ++ y).drop i) = false

/-- Whether a complete-outfit keyword occurs in the lowercased value. -/
def kwIn (x : Str) : Bool :=
  completeOutfitKeywords.any (fun k => containsSub k (lowerStr x))

/-- Whether a value reads "none needed" or "none", case-insensitively. -/
def noneishVal (x : Str) : Bool :=
  lowerStr x == "none needed".data || lowerStr x == "none".data

/-- The literal Bottom value "None needed" installed by the repair pass. -/
def nnVal : Str := "None needed".data

/-- The literal placeholder Top value installed by rule 4. -/
def plVal : Str := "(Please select a top item)".data

/-! ## Concrete fixtures used by counterexamples and witnesses -/

/-- A wedding occasion rule with the single lowercase keyword "wedding". -/
def wedRule : ORule := ⟨["wedding".data], [], [], [], [], []⟩

/-- A casual occasion rule with the single lowercase keyword "casual". -/
def casRule : ORule := ⟨["casual".data], [], [], [], [], []⟩

/-- A two-occasion table (wedding, casual) whose default is "casual". -/
def wedTable : OccTable := ⟨[("wedding".data, wedRule), ("casual".data, casRule)], "casual".data⟩

/-- A wedding occasion rule whose keyword carries an uppercase letter. -/
def capRule : ORule := ⟨["Wedding".data], [], [], [], [], []⟩

/-- Like `wedTable` but the wedding keyword is capitalized. -/
def capTable : OccTable := ⟨[("wedding".data, capRule), ("casual".data, casRule)], "casual".data⟩

/-- A table whose designated default occasion name is absent. -/
def noDefaultTable : OccTable :=
  ⟨[("formal".data, ⟨["formal".data], [], [], [], [], []⟩)], "casual".data⟩

/-- An occasion rule with empty allowed lists and no forbidden descriptors. -/
def permissiveRule : ORule := ⟨[], [], [], [], [], []⟩

/-- An occasion rule forbidding the descriptor " f" (note the leading
space). -/
def spaceForbidRule : ORule := ⟨[], [], [], [], [], [" f".data]⟩

/-- An occasion rule forbidding the descriptor "formal". -/
def formalForbidRule : ORule := ⟨[], [], [], [], [], ["formal".data]⟩

/-! ## Helper lemmas about the regex model -/

theorem containsSub_cons_eq_false {lit : Str} {c : Char} {t : Str}
    (h : containsSub lit (c :: t) = false) :
    lit.isPrefixOf (c :: t) = false ∧ containsSub lit t = false := by
  have h' := h
  rw [containsSub, Bool.or_eq_false_iff] at h'
  exact h'

theorem lowerStr_cons (c : Char) (t : Str) :
    lowerStr (c :: t) = lowerCh c :: lowerStr t := rfl

theorem matchAt_eq_none {lit : Str} {s : Str}
    (h : lit.isPrefixOf (lowerStr s) = false) : matchAt lit s = none := by
  rw [matchAt, ciPrefixAt, h]
  rfl

theorem findMatch_eq_none {lit : Str} :
    ∀ {s : Str}, containsSub lit (lowerStr s) = false → findMatch lit s = none := by
  intro s
  induction s with
  | nil => intro _; rfl
  | cons c t ih =>
    intro h
    rw [lowerStr_cons] at h
    obtain ⟨h1, h2⟩ := containsSub_cons_eq_false h
    rw [findMatch, matchAt_eq_none (by rw [lowerStr_cons]; exact h1), ih h2]
    rfl

theorem extractVal_eq_nil {lit : Str} {s : Str}
    (h : containsSub lit (lowerStr s) = false) : extractVal lit s = [] := by
  rw [extractVal, findMatch_eq_none h]

theorem subAllF_eq_self {lit repl : Str} :
    ∀ {s : Str} (f : Nat), containsSub lit (lowerStr s) = false →
      subAllF lit repl f s = s := by
  intro s
  induction s with
  | nil => intro f _; cases f <;> rfl
  | cons c t ih =>
    intro f h
    rw [lowerStr_cons] at h
    obtain ⟨h1, h2⟩ := containsSub_cons_eq_false h
    cases f with
    | zero => rfl
    | succ g =>
      rw [subAllF, matchAt_eq_none (by rw [lowerStr_cons]; exact h1)]
      simp only [ih g h2]

theorem subAll_eq_self {lit repl : Str} {s : Str}
    (h : containsSub lit (lowerStr s) = false) : subAll lit repl s = s :=
  subAllF_eq_self s.length h

/-- Text containing no case-insensitive occurrence of either label passes
through the repair pass unchanged. -/
theorem fix_of_no_labels {s : Str}
    (ht : containsSub topLit (lowerStr s) = false)
    (hb : containsSub botLit (lowerStr s) = false) :
    fix_complete_outfit_bottom s = s := by
  have het : extractVal topLit s = [] := extractVal_eq_nil ht
  have heb : extractVal botLit s = [] := extractVal_eq_nil hb
  have h1 : bottomComplete s = false := by
    simp only [bottomComplete, bottomItemOf, heb]
    decide
  have h2 : topComplete s = false := by
    simp only [topComplete, topItemOf, het]
    decide
  have h3 : topNoneish s = false := by
    simp only [topNoneish, topItemOf, het]
    decide
  simp only [fix_complete_outfit_bottom, h1, h2, h3, Bool.false_and, Bool.false_or,
    if_neg (by decide : ¬ (false = true)), if_neg (by decide : ¬ (false = true))]

/-- The lowercased "none"/"none needed" Top values contain no complete-outfit
keyword, so a noneish Top is never itself classified as a complete outfit. -/
theorem topComplete_eq_false_of_noneish {s : Str} (h : topNoneish s = true) :
    topComplete s = false := by
  rw [topNoneish, Bool.or_eq_true_iff] at h
  rcases h with h | h <;>
    · rw [beq_iff_eq] at h
      simp only [topComplete, h]
      decide

/-- FIX 1 of the repair pass: under its guard, the result substitutes every
`Top:` match with the extracted Bottom value and then every `Bottom:` match
with "None needed", returning immediately. -/
theorem fix_swap_branch {s : Str} (h1 : bottomComplete s = true)
    (h2 : topNoneish s = true ∨ topItemOf s = []) :
    fix_complete_outfit_bottom s
      = subAll botLit bottomNoneRepl (subAll topLit (topSwapRepl s) s) := by
  have hc : (bottomComplete s && (topNoneish s || topItemOf s == [])) = true := by
    rcases h2 with h2 | h2
    · rw [h1, h2, Bool.true_or, Bool.true_and]
    · rw [h1, h2]
      simp
  simp only [fix_complete_outfit_bottom, hc, if_true]

/-- FIX 4 of the repair pass: when the extracted Top value reads "none" or
"none needed" and the extracted Bottom value is not a complete outfit, the
result substitutes every `Top:` match with the placeholder line. -/
theorem fix_fix4_branch {s : Str} (h1 : topNoneish s = true)
    (h2 : bottomComplete s = false) :
    fix_complete_outfit_bottom s = subAll topLit topPlaceholderRepl s := by
  have h3 : topComplete s = false := topComplete_eq_false_of_noneish h1
  simp only [fix_complete_outfit_bottom, h1, h2, h3, Bool.false_and,
    Bool.false_eq_true, if_false, if_true]

/-! ## Scanning lemmas for canonical texts -/

theorem lowerStr_append (x y : Str) : lowerStr (x ++ y) = lowerStr x ++ lowerStr y :=
  List.map_append lowerCh x y

theorem lowerStr_drop (s : Str) (i : Nat) : lowerStr (s.drop i) = (lowerStr s).drop i :=
  List.map_drop lowerCh s i

theorem lowerStr_length (s : Str) : (lowerStr s).length = s.length :=
  List.length_map s lowerCh

theorem prefix_append_long {lit x y : Str} (h : lit.isPrefixOf (x ++ y) = true)
    (hl : lit.length ≤ x.length) : lit.isPrefixOf x = true := by
  rw [List.isPrefixOf_iff_prefix] at h ⊢
  rw [List.prefix_iff_eq_take] at h ⊢
  rw [List.take_append_of_le_length hl] at h
  exact h

theorem prefix_append_split {lit x y : Str} (h : lit.isPrefixOf (x ++ y) = true)
    (hl : x.length < lit.length) :
    lit.take x.length = x ∧ (lit.drop x.length).isPrefixOf y = true := by
  rw [List.isPrefixOf_iff_prefix] at h
  obtain ⟨r, hr⟩ := h
  have h1 : List.take x.length (lit ++ r) = List.take x.length (x ++ y) := by rw [hr]
  have h2 : List.drop x.length (lit ++ r) = List.drop x.length (x ++ y) := by rw [hr]
  rw [List.take_append_of_le_length (le_of_lt hl),
    List.take_append_of_le_length (le_refl _), List.take_length] at h1
  rw [List.drop_append_of_le_length (le_of_lt hl),
    List.drop_append_of_le_length (le_refl _), List.drop_length, List.nil_append] at h2
  refine ⟨h1, ?_⟩
  rw [List.isPrefixOf_iff_prefix]
  exact ⟨r, h2⟩

theorem not_prefix_drop_of_not_contains {lit L : Str} (h : containsSub lit L = false) :
    ∀ i : Nat, lit.isPrefixOf (L.drop i) = false := by
  induction L with
  | nil =>
    intro i
    rw [List.drop_nil]
    exact h
  | cons c t ih =>
    obtain ⟨h1, h2⟩ := containsSub_cons_eq_false h
    intro i
    cases i with
    | zero => exact h1
    | succ j =>
      rw [List.drop_succ_cons]
      exact ih h2 j

theorem noMatchAll_of_not_contains {lit s : Str}
    (h : containsSub lit (lowerStr s) = false) : noMatchAll lit s := by
  intro i
  rw [ciPrefixAt, lowerStr_drop]
  exact not_prefix_drop_of_not_contains h i

theorem noMatchAll_append {lit x y : Str} (h1 : spanFree lit x y) (h2 : noMatchAll lit y) :
    noMatchAll lit (x ++ y) := by
  intro i
  by_cases hi : i < x.length
  · exact h1 i hi
  · push_neg at hi
    obtain ⟨k, rfl⟩ : ∃ k, i = x.length + k := ⟨i - x.length, by omega⟩
    rw [List.drop_append]
    exact h2 k

theorem spanFree_append {lit x y z : Str} (h1 : spanFree lit x (y ++ z))
    (h2 : spanFree lit y z) : spanFree lit (x ++ y) z := by
  intro i hi
  rw [List.append_assoc]
  by_cases hx : i < x.length
  · exact h1 i hx
  · push_neg at hx
    rw [List.length_append] at hi
    obtain ⟨k, rfl⟩ : ∃ k, i = x.length + k := ⟨i - x.length, by omega⟩
    rw [List.drop_append]
    exact h2 k (by omega)

theorem spanFree_intro {lit x y : Str} (hx : containsSub lit (lowerStr x) = false)
    (hj : ∀ j : Nat, 0 < j → j < lit.length →
      (lit.take j).isSuffixOf (lowerStr x) = false ∨
        (lit.drop j).isPrefixOf (lowerStr y) = false) :
    spanFree lit x y := by
  intro i hi
  rw [ciPrefixAt, lowerStr_drop, lowerStr_append,
    List.drop_append_of_le_length (by rw [lowerStr_length]; omega)]
  rcases hp : lit.isPrefixOf ((lowerStr x).drop i ++ lowerStr y) with _ | _
  · rfl
  · exfalso
    have hlen : ((lowerStr x).drop i).length = x.length - i := by
      rw [List.length_drop, lowerStr_length]
    by_cases hl : lit.length ≤ ((lowerStr x).drop i).length
    · have := prefix_append_long hp hl
      rw [not_prefix_drop_of_not_contains hx i] at this
      exact absurd this (by decide)
    · push_neg at hl
      obtain ⟨ht, hpre⟩ := prefix_append_split hp hl
      have hj0 : 0 < ((lowerStr x).drop i).length := by omega
      rcases hj _ hj0 hl with hs | hp'
      · rw [ht] at hs
        have htrue : ((lowerStr x).drop i).isSuffixOf (lowerStr x) = true :=
          List.isSuffixOf_iff_suffix.mpr (List.drop_suffix i (lowerStr x))
        rw [htrue] at hs
        exact absurd hs (by decide)
      · rw [hp'] at hpre
        exact absurd hpre (by decide)

theorem findMatch_append_skip {lit : Str} :
    ∀ {x y : Str}, spanFree lit x y →
      findMatch lit (x ++ y)
        = (findMatch lit y).map (fun p => (p.1 + x.length, p.2.1, p.2.2)) := by
  intro x
  induction x with
  | nil =>
    intro y _
    rw [List.nil_append]
    cases findMatch lit y with
    | none => rfl
    | some p => simp
  | cons c x' ih =>
    intro y h
    have h0 : matchAt lit (c :: (x' ++ y)) = none := by
      apply matchAt_eq_none
      have := h 0 (by simp)
      rw [List.drop_zero, List.cons_append] at this
      exact this
    have hx' : spanFree lit x' y := by
      intro i hi
      have := h (i + 1) (by simp; omega)
      rwa [List.cons_append, List.drop_succ_cons] at this
    rw [List.cons_append, findMatch, h0, ih hx']
    cases findMatch lit y with
    | none => rfl
    | some p =>
      simp only [Option.map_some, List.length_cons]
      refine congrArg some ?_
      refine Prod.ext ?_ rfl
      show (p.1 + x'.length) + 1 = p.1 + (x'.length + 1)
      omega

theorem extractVal_append_skip {lit x y : Str} (h : spanFree lit x y) :
    extractVal lit (x ++ y) = extractVal lit y := by
  rw [extractVal, findMatch_append_skip h, extractVal]
  cases findMatch lit y with
  | none => rfl
  | some p => rfl

theorem subAllF_append_skip {lit repl : Str} :
    ∀ {x y : Str} (f : Nat), spanFree lit x y →
      subAllF lit repl (x.length + f) (x ++ y) = x ++ subAllF lit repl f y := by
  intro x
  induction x with
  | nil =>
    intro y f _
    rw [List.nil_append, List.length_nil, Nat.zero_add, List.nil_append]
  | cons c x' ih =>
    intro y f h
    have h0 : matchAt lit (c :: (x' ++ y)) = none := by
      apply matchAt_eq_none
      have := h 0 (by simp)
      rw [List.drop_zero, List.cons_append] at this
      exact this
    have hx' : spanFree lit x' y := by
      intro i hi
      have := h (i + 1) (by simp; omega)
      rwa [List.cons_append, List.drop_succ_cons] at this
    have hfuel : (c :: x').length + f = (x'.length + f) + 1 := by
      rw [List.length_cons]
      omega
    rw [List.cons_append, hfuel, subAllF, h0, ih f hx', List.cons_append]

theorem subAllF_eq_self_of_noMatchAll {lit repl : Str} :
    ∀ {s : Str} (f : Nat), noMatchAll lit s → subAllF lit repl f s = s := by
  intro s
  induction s with
  | nil => intro f _; cases f <;> rfl
  | cons c t ih =>
    intro f h
    have h0 : matchAt lit (c :: t) = none := by
      apply matchAt_eq_none
      have := h 0
      rw [List.drop_zero] at this
      exact this
    cases f with
    | zero => rfl
    | succ g =>
      rw [subAllF, h0]
      simp only [ih g (fun i => by have := h (i + 1); rwa [List.drop_succ_cons] at this)]

/-! ## Matching at a label line -/

theorem takeWhile_append_stop {p : Char → Bool} {v rest : Str} {b : Char}
    (hv : ∀ c ∈ v, p c = true) (hb : p b = false) :
    (v ++ b :: rest).takeWhile p = v := by
  induction v with
  | nil =>
    rw [List.nil_append, List.takeWhile_cons_of_neg]
    rw [hb]
    exact Bool.false_ne_true
  | cons a t ih =>
    rw [List.cons_append, List.takeWhile_cons_of_pos (hv a (List.mem_cons_self a t)),
      ih (fun c hc => hv c (List.mem_cons_of_mem a hc))]

theorem head_not_space {v : Str} (hv : v ≠ []) (hs : pystrip v = v) :
    ∃ a t, v = a :: t ∧ isPySpace a = false := by
  cases v with
  | nil => exact absurd rfl hv
  | cons a t =>
    refine ⟨a, t, rfl, ?_⟩
    rcases ha : isPySpace a with _ | _
    · rfl
    · exfalso
      have h1 : pystrip (a :: t) = ((t.dropWhile isPySpace).reverse.dropWhile isPySpace).reverse := by
        rw [pystrip, List.dropWhile_cons_of_pos ha]
      have h2 : (pystrip (a :: t)).length ≤ t.length := by
        rw [h1, List.length_reverse]
        calc ((t.dropWhile isPySpace).reverse.dropWhile isPySpace).length
            ≤ (t.dropWhile isPySpace).reverse.length :=
              (List.dropWhile_suffix _).length_le
          _ = (t.dropWhile isPySpace).length := List.length_reverse _
          _ ≤ t.length := (List.dropWhile_suffix _).length_le
      rw [hs] at h2
      simp at h2

theorem findK_label {a : Char} {t rest : Str} (ha : isPySpace a = false) :
    findK (' ' :: ((a :: t) ++ '\n' :: rest)) = some 1 := by
  have hw : (' ' :: ((a :: t) ++ '\n' :: rest)).takeWhile isPySpace = [' '] := by
    rw [List.takeWhile_cons_of_pos (by decide), List.cons_append,
      List.takeWhile_cons_of_neg (by rw [ha]; exact Bool.false_ne_true)]
  simp only [findK, hw]
  rw [if_pos (by simp only [List.length_cons, List.length_append, List.length_nil]; omega)]
  rfl

theorem group_label {v rest : Str} (hnl : ∀ c ∈ v, (c == '\n') = false) :
    (v ++ '\n' :: rest).takeWhile (fun c => c != '\n') = v := by
  apply takeWhile_append_stop
  · intro c hc
    have := hnl c hc
    rw [bne, this]
    rfl
  · decide

theorem matchAt_top_label {v rest : Str} (hv : v ≠ []) (hs : pystrip v = v)
    (hnl : ∀ c ∈ v, (c == '\n') = false) :
    matchAt topLit ("Top: ".data ++ (v ++ '\n' :: rest))
      = some (("Top: ".data ++ v).length, v) := by
  obtain ⟨a, t, rfl, ha⟩ := head_not_space hv hs
  have hci : ciPrefixAt topLit ("Top: ".data ++ ((a :: t) ++ '\n' :: rest)) = true := by
    rw [ciPrefixAt, List.isPrefixOf_iff_prefix, lowerStr_append,
      show lowerStr "Top: ".data = topLit ++ [' '] from by decide, List.append_assoc]
    exact List.prefix_append _ _
  have hdrop : ("Top: ".data ++ ((a :: t) ++ '\n' :: rest)).drop topLit.length
      = ' ' :: ((a :: t) ++ '\n' :: rest) := rfl
  rw [matchAt, hci]
  rw [if_pos rfl]
  simp only [hdrop, findK_label ha]
  simp only [List.drop_succ_cons, List.drop_zero, group_label hnl]
  refine congrArg some (Prod.ext ?_ rfl)
  show topLit.length + 1 + (a :: t).length = ("Top: ".data ++ (a :: t)).length
  rw [List.length_append]
  rfl

theorem matchAt_bot_label {v rest : Str} (hv : v ≠ []) (hs : pystrip v = v)
    (hnl : ∀ c ∈ v, (c == '\n') = false) :
    matchAt botLit ("Bottom: ".data ++ (v ++ '\n' :: rest))
      = some (("Bottom: ".data ++ v).length, v) := by
  obtain ⟨a, t, rfl, ha⟩ := head_not_space hv hs
  have hci : ciPrefixAt botLit ("Bottom: ".data ++ ((a :: t) ++ '\n' :: rest)) = true := by
    rw [ciPrefixAt, List.isPrefixOf_iff_prefix, lowerStr_append,
      show lowerStr "Bottom: ".data = botLit ++ [' '] from by decide, List.append_assoc]
    exact List.prefix_append _ _
  have hdrop : ("Bottom: ".data ++ ((a :: t) ++ '\n' :: rest)).drop botLit.length
      = ' ' :: ((a :: t) ++ '\n' :: rest) := rfl
  rw [matchAt, hci]
  rw [if_pos rfl]
  simp only [hdrop, findK_label ha]
  simp only [List.drop_succ_cons, List.drop_zero, group_label hnl]
  refine congrArg some (Prod.ext ?_ rfl)
  show botLit.length + 1 + (a :: t).length = ("Bottom: ".data ++ (a :: t)).length
  rw [List.length_append]
  rfl

/-! ## No label match starts inside the pieces of a canonical text

For each piece of a canonical text we show that no `top:`/`bottom:` match
can start inside it: occurrences inside the piece are excluded by its
label-freeness, and occurrences spanning into the following piece are
excluded because no proper suffix of either literal can continue across the
concrete text that follows (a label head or a newline). -/

theorem spanFree_top_before_topLabel {x z : Str}
    (h : containsSub topLit (lowerStr x) = false) :
    spanFree topLit x ("Top: ".data ++ z) := by
  refine spanFree_intro h ?_
  intro j hj0 hjlt
  rw [show topLit.length = 4 from rfl] at hjlt
  interval_cases j <;> exact Or.inr rfl

theorem spanFree_top_before_botLabel {x z : Str}
    (h : containsSub topLit (lowerStr x) = false) :
    spanFree topLit x ("Bottom: ".data ++ z) := by
  refine spanFree_intro h ?_
  intro j hj0 hjlt
  rw [show topLit.length = 4 from rfl] at hjlt
  interval_cases j <;> exact Or.inr rfl

theorem spanFree_top_before_nl {x z : Str}
    (h : containsSub topLit (lowerStr x) = false) :
    spanFree topLit x ('\n' :: z) := by
  refine spanFree_intro h ?_
  intro j hj0 hjlt
  rw [show topLit.length = 4 from rfl] at hjlt
  interval_cases j <;> exact Or.inr rfl

theorem spanFree_top_botLabel (z : Str) : spanFree topLit "Bottom: ".data z := by
  refine spanFree_intro (by decide) ?_
  intro j hj0 hjlt
  rw [show topLit.length = 4 from rfl] at hjlt
  interval_cases j <;> exact Or.inl (by decide)

theorem spanFree_top_nl (z : Str) : spanFree topLit ['\n'] z := by
  refine spanFree_intro (by decide) ?_
  intro j hj0 hjlt
  rw [show topLit.length = 4 from rfl] at hjlt
  interval_cases j <;> exact Or.inl (by decide)

theorem spanFree_bot_before_topLabel {x z : Str}
    (h : containsSub botLit (lowerStr x) = false) :
    spanFree botLit x ("Top: ".data ++ z) := by
  refine spanFree_intro h ?_
  intro j hj0 hjlt
  rw [show botLit.length = 7 from rfl] at hjlt
  interval_cases j <;> exact Or.inr rfl

theorem spanFree_bot_before_botLabel {x z : Str}
    (h : containsSub botLit (lowerStr x) = false) :
    spanFree botLit x ("Bottom: ".data ++ z) := by
  refine spanFree_intro h ?_
  intro j hj0 hjlt
  rw [show botLit.length = 7 from rfl] at hjlt
  interval_cases j <;> exact Or.inr rfl

theorem spanFree_bot_before_nl {x z : Str}
    (h : containsSub botLit (lowerStr x) = false) :
    spanFree botLit x ('\n' :: z) := by
  refine spanFree_intro h ?_
  intro j hj0 hjlt
  rw [show botLit.length = 7 from rfl] at hjlt
  interval_cases j <;> exact Or.inr rfl

theorem spanFree_bot_topLabel (z : Str) : spanFree botLit "Top: ".data z := by
  refine spanFree_intro (by decide) ?_
  intro j hj0 hjlt
  rw [show botLit.length = 7 from rfl] at hjlt
  interval_cases j <;> exact Or.inl (by decide)

theorem spanFree_bot_nl (z : Str) : spanFree botLit ['\n'] z := by
  refine spanFree_intro (by decide) ?_
  intro j hj0 hjlt
  rw [show botLit.length = 7 from rfl] at hjlt
  interval_cases j <;> exact Or.inl (by decide)

/-! ## Extraction and substitution on canonical texts -/

theorem extractVal_of_matchAt_head {lit s : Str} {n : Nat} {g : Str}
    (h : matchAt lit s = some (n, g)) (hs : s ≠ []) : extractVal lit s = g := by
  cases s with
  | nil => exact absurd rfl hs
  | cons c t => rw [extractVal, findMatch, h]

theorem subAllF_of_matchAt_head {lit repl s : Str} {n : Nat} {g : Str} (f : Nat)
    (h : matchAt lit s = some (n, g)) (hs : s ≠ []) :
    subAllF lit repl (f + 1) s = repl ++ subAllF lit repl f (s.drop n) := by
  cases s with
  | nil => exact absurd rfl hs
  | cons c t =>
    rw [subAllF, h]

theorem noMatchAll_top_rest {M w Q : Str}
    (hM : containsSub topLit (lowerStr M) = false)
    (hw : containsSub topLit (lowerStr w) = false)
    (hQ : containsSub topLit (lowerStr Q) = false) :
    noMatchAll topLit ('\n' :: (M ++ ("Bottom: ".data ++ (w ++ '\n' :: Q)))) := by
  have h0 : noMatchAll topLit Q := noMatchAll_of_not_contains hQ
  have h1 : noMatchAll topLit ('\n' :: Q) := noMatchAll_append (spanFree_top_nl Q) h0
  have h2 : noMatchAll topLit (w ++ '\n' :: Q) :=
    noMatchAll_append (spanFree_top_before_nl hw) h1
  have h3 : noMatchAll topLit ("Bottom: ".data ++ (w ++ '\n' :: Q)) :=
    noMatchAll_append (spanFree_top_botLabel _) h2
  have h4 : noMatchAll topLit (M ++ ("Bottom: ".data ++ (w ++ '\n' :: Q))) :=
    noMatchAll_append (spanFree_top_before_botLabel hM) h3
  exact noMatchAll_append (spanFree_top_nl _) h4

theorem noMatchAll_bot_tail {Q : Str} (hQ : containsSub botLit (lowerStr Q) = false) :
    noMatchAll botLit ('\n' :: Q) :=
  noMatchAll_append (spanFree_bot_nl Q) (noMatchAll_of_not_contains hQ)

theorem spanFree_bot_leadin {P v M z : Str}
    (hP : containsSub botLit (lowerStr P) = false)
    (hv : containsSub botLit (lowerStr v) = false)
    (hM : containsSub botLit (lowerStr M) = false) :
    spanFree botLit ((((P ++ "Top: ".data) ++ v) ++ ['\n']) ++ M) ("Bottom: ".data ++ z) := by
  have a8 : spanFree botLit M ("Bottom: ".data ++ z) := spanFree_bot_before_botLabel hM
  have a6 : spanFree botLit ['\n'] (M ++ ("Bottom: ".data ++ z)) := spanFree_bot_nl _
  have a4 : spanFree botLit v (['\n'] ++ (M ++ ("Bottom: ".data ++ z))) :=
    spanFree_bot_before_nl hv
  have a2 : spanFree botLit "Top: ".data
      (v ++ (['\n'] ++ (M ++ ("Bottom: ".data ++ z)))) := spanFree_bot_topLabel _
  have a1 : spanFree botLit P
      ("Top: ".data ++ (v ++ (['\n'] ++ (M ++ ("Bottom: ".data ++ z))))) :=
    spanFree_bot_before_topLabel hP
  exact spanFree_append (spanFree_append (spanFree_append (spanFree_append a1 a2) a4) a6) a8

theorem canon_left_assoc (P v M w Q : Str) :
    canon P v M w Q
      = ((((P ++ "Top: ".data) ++ v) ++ ['\n']) ++ M) ++ ("Bottom: ".data ++ (w ++ '\n' :: Q)) := by
  simp [canon, List.append_assoc]

theorem canon_right_assoc (P v M w Q : Str) :
    canon P v M w Q
      = P ++ ("Top: ".data ++ (v ++ '\n' :: (M ++ ("Bottom: ".data ++ (w ++ '\n' :: Q))))) := by
  simp [canon, List.append_assoc]

theorem extractVal_top_canon {P v M w Q : Str} (h : canonOk P v M w Q) :
    extractVal topLit (canon P v M w Q) = v := by
  obtain ⟨hP, ⟨hv1, hv2, hv3, hv4⟩, hM, ⟨hw1, hw2, hw3, hw4⟩, hQ⟩ := h
  rw [canon_right_assoc, extractVal_append_skip (spanFree_top_before_topLabel hP.1)]
  exact extractVal_of_matchAt_head (matchAt_top_label hv1 hv2 hv3) (by simp)

theorem extractVal_bot_canon {P v M w Q : Str} (h : canonOk P v M w Q) :
    extractVal botLit (canon P v M w Q) = w := by
  obtain ⟨hP, ⟨hv1, hv2, hv3, hv4⟩, hM, ⟨hw1, hw2, hw3, hw4⟩, hQ⟩ := h
  rw [canon_left_assoc, extractVal_append_skip (spanFree_bot_leadin hP.2 hv4.2 hM.2)]
  exact extractVal_of_matchAt_head (matchAt_bot_label hw1 hw2 hw3) (by simp)

theorem subAll_top_canon {P v M w Q : Str} (h : canonOk P v M w Q) (u : Str) :
    subAll topLit ("Top: ".data ++ u) (canon P v M w Q) = canon P u M w Q := by
  obtain ⟨hP, ⟨hv1, hv2, hv3, hv4⟩, hM, ⟨hw1, hw2, hw3, hw4⟩, hQ⟩ := h
  rw [canon_right_assoc, subAll, List.length_append,
    subAllF_append_skip _ (spanFree_top_before_topLabel hP.1)]
  have hsplit : "Top: ".data ++ (v ++ '\n' :: (M ++ ("Bottom: ".data ++ (w ++ '\n' :: Q))))
      = ("Top: ".data ++ v) ++ '\n' :: (M ++ ("Bottom: ".data ++ (w ++ '\n' :: Q))) := by
    rw [List.append_assoc]
  have hlen : ("Top: ".data ++ (v ++ '\n' :: (M ++ ("Bottom: ".data ++ (w ++ '\n' :: Q))))).length
      = (("Top: ".data ++ (v ++ '\n' :: (M ++ ("Bottom: ".data ++ (w ++ '\n' :: Q))))).length - 1) + 1 := by
    rw [hsplit]
    simp only [List.length_append, List.length_cons]
    omega
  rw [hlen, subAllF_of_matchAt_head _ (matchAt_top_label hv1 hv2 hv3) (by simp), hsplit,
    List.drop_left, subAllF_eq_self_of_noMatchAll _ (noMatchAll_top_rest hM.1 hw4.1 hQ.1),
    canon_right_assoc]
  simp [List.append_assoc]

theorem subAll_bot_canon {P v M w Q : Str} (h : canonOk P v M w Q) (u : Str) :
    subAll botLit ("Bottom: ".data ++ u) (canon P v M w Q) = canon P v M u Q := by
  obtain ⟨hP, ⟨hv1, hv2, hv3, hv4⟩, hM, ⟨hw1, hw2, hw3, hw4⟩, hQ⟩ := h
  rw [canon_left_assoc, subAll, List.length_append,
    subAllF_append_skip _ (spanFree_bot_leadin hP.2 hv4.2 hM.2)]
  have hsplit : "Bottom: ".data ++ (w ++ '\n' :: Q) = ("Bottom: ".data ++ w) ++ '\n' :: Q := by
    rw [List.append_assoc]
  have hlen : ("Bottom: ".data ++ (w ++ '\n' :: Q)).length
      = (("Bottom: ".data ++ (w ++ '\n' :: Q)).length - 1) + 1 := by
    rw [hsplit]
    simp only [List.length_append, List.length_cons]
    omega
  rw [hlen, subAllF_of_matchAt_head _ (matchAt_bot_label hw1 hw2 hw3) (by simp), hsplit,
    List.drop_left, subAllF_eq_self_of_noMatchAll _ (noMatchAll_bot_tail hQ.2),
    canon_left_assoc]
  simp [List.append_assoc]

/-! ## The repair pass on canonical texts -/

theorem topItemOf_canon {P v M w Q : Str} (h : canonOk P v M w Q) :
    topItemOf (canon P v M w Q) = v := by
  rw [topItemOf, extractVal_top_canon h, h.2.1.2.1]

theorem bottomItemOf_canon {P v M w Q : Str} (h : canonOk P v M w Q) :
    bottomItemOf (canon P v M w Q) = w := by
  rw [bottomItemOf, extractVal_bot_canon h, h.2.2.2.1.2.1]

theorem bottomComplete_canon {P v M w Q : Str} (h : canonOk P v M w Q) :
    bottomComplete (canon P v M w Q) = kwIn w := by
  show completeOutfitKeywords.any
      (fun k => containsSub k (lowerStr (bottomItemOf (canon P v M w Q)))) = kwIn w
  rw [bottomItemOf_canon h, kwIn]

theorem topComplete_canon {P v M w Q : Str} (h : canonOk P v M w Q) :
    topComplete (canon P v M w Q) = kwIn v := by
  show completeOutfitKeywords.any
      (fun k => containsSub k (lowerStr (topItemOf (canon P v M w Q)))) = kwIn v
  rw [topItemOf_canon h, kwIn]

theorem topNoneish_canon {P v M w Q : Str} (h : canonOk P v M w Q) :
    topNoneish (canon P v M w Q) = noneishVal v := by
  show (lowerStr (topItemOf (canon P v M w Q)) == "none needed".data
      || lowerStr (topItemOf (canon P v M w Q)) == "none".data) = noneishVal v
  rw [topItemOf_canon h, noneishVal]

theorem valueOk_nnVal : valueOk nnVal :=
  ⟨by decide, by decide, by decide, by decide, by decide⟩

theorem valueOk_plVal : valueOk plVal :=
  ⟨by decide, by decide, by decide, by decide, by decide⟩

theorem kwIn_eq_false_of_noneish {x : Str} (h : noneishVal x = true) : kwIn x = false := by
  rw [noneishVal, Bool.or_eq_true_iff] at h
  rcases h with h | h <;>
    · rw [beq_iff_eq] at h
      rw [kwIn, h]
      decide

theorem noneishVal_eq_false_of_kwIn {x : Str} (h : kwIn x = true) : noneishVal x = false := by
  rcases hn : noneishVal x with _ | _
  · rfl
  · rw [kwIn_eq_false_of_noneish hn] at h
    exact absurd h (by decide)

/-- The repair pass on a canonical text: the four rewrite rules reduce to a
case split on whether the Bottom value is a complete outfit and whether the
Top value is noneish, and every branch returns a canonical text over the
same surrounding segments. -/
theorem fix_canon {P v M w Q : Str} (h : canonOk P v M w Q) :
    fix_complete_outfit_bottom (canon P v M w Q)
      = if kwIn w then
          (if noneishVal v then canon P w M nnVal Q else canon P v M nnVal Q)
        else if noneishVal v then canon P plVal M w Q
        else if kwIn v then canon P v M nnVal Q
        else canon P v M w Q := by
  have hOkNN : canonOk P v M nnVal Q := ⟨h.1, h.2.1, h.2.2.1, valueOk_nnVal, h.2.2.2.2⟩
  have hOkWW : canonOk P w M w Q := ⟨h.1, h.2.2.2.1, h.2.2.1, h.2.2.2.1, h.2.2.2.2⟩
  have hvne : (v == ([] : Str)) = false := beq_eq_false_iff_ne.mpr h.2.1.1
  have hswap : topSwapRepl (canon P v M w Q) = "Top: ".data ++ w := by
    rw [topSwapRepl, bottomItemOf_canon h]
  have hpl : topPlaceholderRepl = "Top: ".data ++ plVal := by decide
  have hnn : bottomNoneRepl = "Bottom: ".data ++ nnVal := by decide
  rw [fix_complete_outfit_bottom, bottomComplete_canon h, topNoneish_canon h,
    topComplete_canon h, topItemOf_canon h, hswap, hvne, hpl, hnn]
  rcases hkw : kwIn w with _ | _ <;> rcases hnv : noneishVal v with _ | _
  · rcases hkv : kwIn v with _ | _
    · simp only [Bool.false_and, Bool.false_or, Bool.or_false, Bool.false_eq_true,
        eq_self_iff_true, if_true, if_false, ite_false, ite_true]
    · simp only [Bool.false_and, Bool.false_or, Bool.or_false, Bool.false_eq_true,
        eq_self_iff_true, if_true, if_false, ite_false, ite_true]
      exact subAll_bot_canon h nnVal
  · have hkv : kwIn v = false := kwIn_eq_false_of_noneish hnv
    rw [hkv]
    simp only [Bool.false_and, Bool.false_or, Bool.true_or, Bool.or_false, Bool.false_eq_true,
      eq_self_iff_true, if_true, if_false, ite_false, ite_true]
    exact subAll_top_canon h plVal
  · rcases hkv : kwIn v with _ | _
    · simp only [Bool.true_and, Bool.or_false, Bool.false_or, Bool.false_eq_true,
        eq_self_iff_true, if_true, if_false, ite_false, ite_true]
      exact subAll_bot_canon h nnVal
    · simp only [Bool.true_and, Bool.or_false, Bool.false_or, Bool.false_eq_true,
        eq_self_iff_true, if_true, if_false, ite_false, ite_true]
      rw [subAll_bot_canon h nnVal]
      exact subAll_bot_canon hOkNN nnVal
  · simp only [Bool.true_and, Bool.true_or, Bool.or_false, eq_self_iff_true, if_true,
      ite_true]
    rw [subAll_top_canon h w, subAll_bot_canon hOkWW nnVal]

/-- Re-applying the repair pass to the repaired form of a canonical text
changes nothing: the repair pass is idempotent on canonical texts. -/
theorem fix_fix_canon {P v M w Q : Str} (h : canonOk P v M w Q) :
    fix_complete_outfit_bottom (fix_complete_outfit_bottom (canon P v M w Q))
      = fix_complete_outfit_bottom (canon P v M w Q) := by
  have hOkNN : canonOk P v M nnVal Q := ⟨h.1, h.2.1, h.2.2.1, valueOk_nnVal, h.2.2.2.2⟩
  have hOkWNN : canonOk P w M nnVal Q := ⟨h.1, h.2.2.2.1, h.2.2.1, valueOk_nnVal, h.2.2.2.2⟩
  have hOkPL : canonOk P plVal M w Q := ⟨h.1, valueOk_plVal, h.2.2.1, h.2.2.2.1, h.2.2.2.2⟩
  rw [fix_canon h]
  rcases hkw : kwIn w with _ | _ <;> rcases hnv : noneishVal v with _ | _
  · rcases hkv : kwIn v with _ | _
    · simp only [Bool.false_eq_true, if_false, ite_false]
      rw [fix_canon h, hkw, hnv, hkv]
      simp
    · simp only [Bool.false_eq_true, if_false, ite_false, eq_self_iff_true, if_true, ite_true]
      rw [fix_canon hOkNN, hnv, hkv]
      simp [show kwIn nnVal = false from by decide]
  · simp only [Bool.false_eq_true, if_false, ite_false, eq_self_iff_true, if_true, ite_true]
    rw [fix_canon hOkPL, hkw]
    simp [show noneishVal plVal = false from by decide,
      show kwIn plVal = false from by decide]
  · simp only [Bool.false_eq_true, if_false, ite_false, eq_self_iff_true, if_true, ite_true]
    rw [fix_canon hOkNN, hnv]
    rcases hkv : kwIn v with _ | _ <;>
      simp [show kwIn nnVal = false from by decide]
  · simp only [eq_self_iff_true, if_true, ite_true]
    rw [fix_canon hOkWNN, noneishVal_eq_false_of_kwIn hkw, hkw]
    simp [show kwIn nnVal = false from by decide]

/-! ## Claims about the repair pass -/

/-- C1, counterexample.  On `"Bottom: red saree\n"` the first extracted
Bottom value contains a complete-outfit keyword and the first extracted Top
value is empty, so the claim requires the swap to set Top to "red saree";
but the text has no `Top:` occurrence, the Top substitution is a no-op, and
the repaired text contains no Top value at all. -/
theorem C1_swap_counterexample :
    bottomComplete "Bottom: red saree\n".data = true ∧
    topItemOf "Bottom: red saree\n".data = [] ∧
    fix_complete_outfit_bottom "Bottom: red saree\n".data = "Bottom: None needed\n".data ∧
    topItemOf (fix_complete_outfit_bottom "Bottom: red saree\n".data) ≠ "red saree".data := by
  refine ⟨by decide, by decide, by decide, by decide⟩

/-- C1 (amended): when the first extracted Bottom value contains a
complete-outfit keyword and the first extracted Top value is empty or reads
"none"/"none needed", the repair substitutes every `Top:` match with
`Top: {old Bottom value}` and every `Bottom:` match with
`Bottom: None needed` and returns; when the text has no `Top:` occurrence
the old Bottom value is therefore dropped rather than swapped in.  On every
canonical generated text (one Top line, one Bottom line, label-free
elsewhere) whose Bottom value is a complete outfit and whose Top value is
noneish, the swap does hold: Top becomes the old Bottom value and Bottom
becomes "None needed".  The spec's concrete example also holds: repairing
`"Top: None needed\nBottom: red saree\n"` yields
`"Top: red saree\nBottom: None needed\n"`. -/
theorem C1_swap_amended :
    (∀ s : Str, bottomComplete s = true → topNoneish s = true ∨ topItemOf s = [] →
      fix_complete_outfit_bottom s
        = subAll botLit bottomNoneRepl (subAll topLit (topSwapRepl s) s)) ∧
    (∀ P v M w Q : Str, canonOk P v M w Q → kwIn w = true → noneishVal v = true →
      fix_complete_outfit_bottom (canon P v M w Q) = canon P w M nnVal Q) ∧
    fix_complete_outfit_bottom "Top: None needed\nBottom: red saree\n".data
      = "Top: red saree\nBottom: None needed\n".data := by
  refine ⟨fun s h1 h2 => fix_swap_branch h1 h2, fun P v M w Q h hkw hnv => ?_, by decide⟩
  rw [fix_canon h, hkw, hnv]
  simp

/-- C1 witness: the amended swap rule applied at a concrete noneish-Top,
saree-Bottom text. -/
theorem C1_swap_amended_witness :
    fix_complete_outfit_bottom "Top: none\nBottom: blue saree\n".data
      = subAll botLit bottomNoneRepl
          (subAll topLit (topSwapRepl "Top: none\nBottom: blue saree\n".data)
            "Top: none\nBottom: blue saree\n".data) :=
  C1_swap_amended.1 "Top: none\nBottom: blue saree\n".data (by decide) (Or.inl (by decide))

/-- C4, counterexample.  The claim says only the first occurrence of each
label line is rewritten, matching labels as line prefixes, and that every
other line passes through unchanged.  In fact `re.sub` (with no count)
rewrites every occurrence: on
`"Top: none\nBottom: red saree\nTop: second\n"` the second `Top:` line is
rewritten as well, so the line `Top: second` does not survive; and on
`"Laptop: none\nBottom: blue gown\n"` the label matches in the middle of
`Laptop:`, which a line-prefix match would not touch. -/
theorem C4_first_occurrence_counterexample :
    fix_complete_outfit_bottom "Top: none\nBottom: red saree\nTop: second\n".data
      = "Top: red saree\nBottom: None needed\nTop: red saree\n".data ∧
    containsSub "Top: second".data
      (fix_complete_outfit_bottom "Top: none\nBottom: red saree\nTop: second\n".data) = false ∧
    fix_complete_outfit_bottom "Laptop: none\nBottom: blue gown\n".data
      = "LapTop: blue gown\nBottom: None needed\n".data := by
  refine ⟨by decide, by decide, by decide⟩

/-- C4 (amended): each rewrite substitutes every match of its label pattern,
matched anywhere in the text (not only at line starts); text containing no
case-insensitive occurrence of `top:` or `bottom:` is passed through
character-for-character unchanged; and on a canonical generated text the
segments before, between and after the two label lines are passed through
unchanged — only the two label-line values can change. -/
theorem C4_frame_amended :
    (∀ s : Str, containsSub topLit (lowerStr s) = false →
      containsSub botLit (lowerStr s) = false →
      fix_complete_outfit_bottom s = s) ∧
    (∀ P v M w Q : Str, canonOk P v M w Q →
      ∃ x y : Str, fix_complete_outfit_bottom (canon P v M w Q) = canon P x M y Q) ∧
    fix_complete_outfit_bottom "Top: none\nBottom: red saree\nTop: second\n".data
      = "Top: red saree\nBottom: None needed\nTop: red saree\n".data := by
  refine ⟨fun s ht hb => fix_of_no_labels ht hb, fun P v M w Q h => ?_, by decide⟩
  rw [fix_canon h]
  rcases hkw : kwIn w with _ | _ <;> rcases hnv : noneishVal v with _ | _
  · rcases hkv : kwIn v with _ | _
    · exact ⟨v, w, by simp⟩
    · exact ⟨v, nnVal, by simp⟩
  · exact ⟨plVal, w, by simp⟩
  · exact ⟨v, nnVal, by simp⟩
  · exact ⟨w, nnVal, by simp⟩

/-- C4 witness: a label-free rationale line is untouched by the repair. -/
theorem C4_frame_amended_witness :
    fix_complete_outfit_bottom "Overall Outfit Suggestion: a nice look.\n".data
      = "Overall Outfit Suggestion: a nice look.\n".data :=
  C4_frame_amended.1 "Overall Outfit Suggestion: a nice look.\n".data (by decide) (by decide)

/-- C5, counterexample.  The claim says an empty Top value (including a text
with no `Top:` line at all) triggers the rule-4 placeholder.  The code's
rule 4 tests only for the values "none" and "none needed": on
`"Shoes: boots\n"` the extracted Top value is empty, yet the repair returns
the text unchanged and no placeholder is inserted. -/
theorem C5_placeholder_counterexample :
    topItemOf "Shoes: boots\n".data = [] ∧
    fix_complete_outfit_bottom "Shoes: boots\n".data = "Shoes: boots\n".data ∧
    containsSub "(Please select a top item)".data
      (fix_complete_outfit_bottom "Shoes: boots\n".data) = false := by
  refine ⟨by decide, by decide, by decide⟩

/-- C5 (amended): the placeholder replacement fires exactly when the
extracted Top value reads "none"/"none needed" (case-insensitively, after
stripping) and the Bottom value is not a complete outfit — in that case
every `Top:` match becomes the placeholder line (on a canonical text, the
Top value becomes exactly "(Please select a top item)") and the request
does not fail; when the Top value is empty the text is returned without a
placeholder. -/
theorem C5_placeholder_amended :
    (∀ s : Str, topNoneish s = true → bottomComplete s = false →
      fix_complete_outfit_bottom s = subAll topLit topPlaceholderRepl s) ∧
    (∀ P v M w Q : Str, canonOk P v M w Q → noneishVal v = true → kwIn w = false →
      fix_complete_outfit_bottom (canon P v M w Q) = canon P plVal M w Q) ∧
    fix_complete_outfit_bottom "Shoes: boots\n".data = "Shoes: boots\n".data := by
  refine ⟨fun s h1 h2 => fix_fix4_branch h1 h2, fun P v M w Q h hnv hkw => ?_, by decide⟩
  rw [fix_canon h, hkw, hnv]
  simp

/-- C5 witness: the placeholder rule applied at a concrete text whose Top
reads "none" and whose Bottom is not a complete outfit. -/
theorem C5_placeholder_amended_witness :
    fix_complete_outfit_bottom "Top: none\nBottom: jeans\n".data
      = subAll topLit topPlaceholderRepl "Top: none\nBottom: jeans\n".data :=
  C5_placeholder_amended.1 "Top: none\nBottom: jeans\n".data (by decide) (by decide)

/-- C10, counterexample.  The repair pass is not idempotent: on
`"Top: none\nxtop: bottom: jeans y\nBottom: saree\n"` the first pass applies
the rule-4 placeholder to every `Top:` match, which erases the mid-line
`bottom:` occurrence that had supplied the (non-complete) extracted Bottom
value; the second pass then extracts `saree` as the Bottom value and
rewrites the `Bottom:` line again. -/
theorem C10_idempotent_counterexample :
    fix_complete_outfit_bottom
        (fix_complete_outfit_bottom "Top: none\nxtop: bottom: jeans y\nBottom: saree\n".data)
      ≠ fix_complete_outfit_bottom "Top: none\nxtop: bottom: jeans y\nBottom: saree\n".data := by
  decide

/-- C10 (amended): the repair pass is not idempotent on arbitrary text, but
it is idempotent on every text containing no case-insensitive occurrence of
`top:` or `bottom:` (it acts as the identity there) and on every canonical
generated text — one Top line and one Bottom line with well-formed values,
label-free elsewhere — which is the shape the prompt instructs the
generator to produce. -/
theorem C10_idempotent_amended :
    (∀ s : Str, containsSub topLit (lowerStr s) = false →
      containsSub botLit (lowerStr s) = false →
      fix_complete_outfit_bottom (fix_complete_outfit_bottom s)
        = fix_complete_outfit_bottom s) ∧
    (∀ P v M w Q : Str, canonOk P v M w Q →
      fix_complete_outfit_bottom (fix_complete_outfit_bottom (canon P v M w Q))
        = fix_complete_outfit_bottom (canon P v M w Q)) := by
  refine ⟨fun s ht hb => ?_, fun P v M w Q h => fix_fix_canon h⟩
  rw [fix_of_no_labels ht hb, fix_of_no_labels ht hb]

/-- C10 witness: idempotence applied at a concrete canonical text whose Top
value is a dress and whose Bottom value is not a complete outfit. -/
theorem C10_idempotent_amended_witness :
    fix_complete_outfit_bottom (fix_complete_outfit_bottom
        (canon "Suggestion: a look.\n".data "floral dress".data []
          "denim shorts".data "Shoes: heels\n".data))
      = fix_complete_outfit_bottom
          (canon "Suggestion: a look.\n".data "floral dress".data []
            "denim shorts".data "Shoes: heels\n".data) :=
  C10_idempotent_amended.2 "Suggestion: a look.\n".data "floral dress".data []
    "denim shorts".data "Shoes: heels\n".data
    ⟨⟨by decide, by decide⟩, ⟨by decide, by decide, by decide, by decide, by decide⟩,
      ⟨by decide, by decide⟩, ⟨by decide, by decide, by decide, by decide, by decide⟩,
      ⟨by decide, by decide⟩⟩

/-! ## Helper lemmas about the wardrobe grouping -/

theorem mem_keysOf {c : List WItem} {x : Str} :
    x ∈ keysOf c ↔ ∃ e ∈ c, pystrip e.cat = x := by
  induction c with
  | nil => simp [keysOf]
  | cons e t ih =>
    simp only [keysOf, List.mem_cons, List.mem_filter, ih, decide_eq_true_eq,
      List.mem_cons, exists_eq_or_imp]
    constructor
    · rintro (h | ⟨⟨e', he', hx⟩, _⟩)
      · exact Or.inl h.symm
      · exact Or.inr ⟨e', he', hx⟩
    · rintro (h | ⟨e', he', hx⟩)
      · exact Or.inl h.symm
      · by_cases hk : x = pystrip e.cat
        · exact Or.inl hk
        · exact Or.inr ⟨⟨e', he', hx⟩, hk⟩

theorem keysOf_nodup (c : List WItem) : (keysOf c).Nodup := by
  induction c with
  | nil => simp [keysOf]
  | cons e t ih =>
    refine List.Nodup.cons ?_ (ih.filter _)
    intro hmem
    have := (List.mem_filter.mp hmem).2
    simp at this

theorem contains_iff_mem {α : Type} [BEq α] [LawfulBEq α] {l : List α} {a : α} :
    l.contains a = true ↔ a ∈ l := List.elem_iff

theorem contains_keysOf {c : List WItem} {e : WItem} (he : e ∈ c) :
    (keysOf c).contains (pystrip e.cat) = true := by
  rw [contains_iff_mem]
  exact mem_keysOf.mpr ⟨e, he, rfl⟩

theorem countP_add_countP_disjoint {α : Type} (p q : α → Bool) :
    ∀ l : List α, (∀ a ∈ l, ¬(p a = true ∧ q a = true)) →
      l.countP p + l.countP q = l.countP (fun a => p a || q a) := by
  intro l
  induction l with
  | nil => intro _; rfl
  | cons a t ih =>
    intro h
    have ht := ih (fun b hb => h b (List.mem_cons_of_mem a hb))
    have ha := h a (List.mem_cons_self a t)
    rcases hp : p a with _ | _ <;> rcases hq : q a with _ | _ <;>
      simp_all [List.countP_cons] <;> omega

theorem sum_countP_partition (G : WItem → Bool) (c : List WItem) :
    ∀ ks : List Str, ks.Nodup →
      ((ks.map (fun k => c.countP (fun e => G e && (pystrip e.cat == k)))).sum
        = c.countP (fun e => G e && ks.contains (pystrip e.cat))) := by
  intro ks
  induction ks with
  | nil =>
    intro _
    simp only [List.map_nil, List.sum_nil]
    rw [List.countP_eq_zero.mpr]
    intro e _
    simp [List.contains_nil]
  | cons k ks ih =>
    intro hnd
    have hk : k ∉ ks := (List.nodup_cons.mp hnd).1
    have hks : ks.Nodup := (List.nodup_cons.mp hnd).2
    simp only [List.map_cons, List.sum_cons, ih hks]
    rw [countP_add_countP_disjoint]
    · apply List.countP_congr
      intro e _
      rcases hg : G e with _ | _
      · simp
      · simp only [Bool.true_and, List.contains_cons]
    · rintro e _ ⟨h1, h2⟩
      rw [Bool.and_eq_true, beq_iff_eq] at h1
      rw [Bool.and_eq_true, contains_iff_mem] at h2
      rw [h1.2] at h2
      exact hk h2.2

/-- Occurrence count of a name in a per-category filtered flattening of the
grouped wardrobe: one occurrence per closet entry with that name whose
(stripped category, name) pair satisfies the filter. -/
theorem count_bucket (q : Str → Str → Bool) (c : List WItem) (n : Str) :
    ((itemsByCategory c).flatMap (fun p => p.2.filter (fun m => q p.1 m))).count n
      = c.countP (fun e => e.name == n && q (pystrip e.cat) e.name) := by
  have hmap :
      List.map (List.count n ∘ fun p : Str × List Str => p.2.filter (fun m => q p.1 m))
          (itemsByCategory c)
        = List.map (fun k => c.countP (fun e =>
            (e.name == n && q (pystrip e.cat) e.name) && (pystrip e.cat == k)))
          (keysOf c) := by
    rw [itemsByCategory, List.map_map]
    apply List.map_congr_left
    intro k _
    show ((groupFor c k).filter (fun m => q k m)).count n = _
    rw [groupFor, List.count_eq_countP, List.countP_filter, List.countP_map,
      List.countP_filter]
    apply List.countP_congr
    intro e _
    simp only [Function.comp_apply]
    rcases hc : pystrip e.cat == k with _ | _
    · simp [hc]
    · rw [beq_iff_eq] at hc
      rw [hc]
  rw [List.count_flatMap, hmap,
    sum_countP_partition (fun e => e.name == n && q (pystrip e.cat) e.name) c
      (keysOf c) (keysOf_nodup c)]
  apply List.countP_congr
  intro e he
  rw [contains_keysOf he, Bool.and_true]

/-- Membership in a per-category filtered flattening of the grouped
wardrobe. -/
theorem mem_bucket_iff (q : Str → Str → Bool) (c : List WItem) (n : Str) :
    (n ∈ (itemsByCategory c).flatMap (fun p => p.2.filter (fun m => q p.1 m)))
      ↔ ∃ e ∈ c, e.name = n ∧ q (pystrip e.cat) n = true := by
  rw [← List.count_pos_iff, count_bucket, List.countP_pos_iff]
  constructor
  · rintro ⟨e, he, hpred⟩
    rw [Bool.and_eq_true, beq_iff_eq] at hpred
    exact ⟨e, he, hpred.1, by rw [← hpred.1]; exact hpred.2⟩
  · rintro ⟨e, he, hname, hq⟩
    refine ⟨e, he, ?_⟩
    rw [Bool.and_eq_true, beq_iff_eq]
    exact ⟨hname, by rw [hname]; exact hq⟩

/-! ## Claims about the wardrobe filter -/

/-- C2, counterexample.  The four slot buckets are not pairwise disjoint:
with every allowed list empty and nothing forbidden, the permissive fallback
places the same item in the tops bucket and in the bottoms bucket. -/
theorem C2_disjoint_counterexample :
    "tee".data ∈ get_matching_items permissiveRule [⟨"tee".data, "casual".data⟩] Slot.tops ∧
    "tee".data ∈ get_matching_items permissiveRule [⟨"tee".data, "casual".data⟩] Slot.bottoms := by
  refine ⟨by decide, by decide⟩

/-- C2 (amended): the filter imposes no mutual exclusion between slots.  A
name appears in a slot's bucket exactly when some closet entry with that
name is not forbidden and either matches the slot's allowed descriptors or
the slot's allowed list is empty; nothing prevents one item from satisfying
this for several slots at once. -/
theorem C2_slots_amended (r : ORule) (c : List WItem) (slot : Slot) (n : Str) :
    n ∈ get_matching_items r c slot
      ↔ ∃ e ∈ c, e.name = n ∧ is_item_forbidden r e.name (pystrip e.cat) = false ∧
          (slotAllowed r slot e.name (pystrip e.cat) = true ∨ allowedFor r slot = []) := by
  have h := mem_bucket_iff (fun k m =>
    !is_item_forbidden r m k && (slotAllowed r slot m k || (allowedFor r slot).isEmpty)) c n
  constructor
  · intro hmem
    obtain ⟨e, he, hname, hq⟩ := h.mp hmem
    rw [Bool.and_eq_true, Bool.not_eq_true', Bool.or_eq_true, List.isEmpty_iff] at hq
    refine ⟨e, he, hname, ?_, ?_⟩
    · rw [hname]
      exact hq.1
    · rw [hname]
      exact hq.2
  · rintro ⟨e, he, hname, hforb, hallow⟩
    apply h.mpr
    refine ⟨e, he, hname, ?_⟩
    rw [Bool.and_eq_true, Bool.not_eq_true', Bool.or_eq_true, List.isEmpty_iff]
    subst hname
    exact ⟨hforb, hallow⟩

/-- C3, counterexample.  The forbidden test lowercases the *stripped*
category, not the raw category: with forbidden descriptor " f" and raw
category " f ", the raw category contains the descriptor but the stripped
category "f" does not, so the item is not treated as forbidden and lands in
the (permissive) tops bucket. -/
theorem C3_forbidden_counterexample :
    containsSub (lowerStr " f".data) (lowerStr " f ".data) = true ∧
    is_item_forbidden spaceForbidRule "x".data (pystrip " f ".data) = false ∧
    "x".data ∈ get_matching_items spaceForbidRule [⟨"x".data, " f ".data⟩] Slot.tops := by
  refine ⟨by decide, by decide, by decide⟩

/-- C3 (amended): an item name is excluded from every slot bucket provided
every closet entry carrying that name has a forbidden descriptor occurring
(case-insensitively) in its name or in its whitespace-stripped category. -/
theorem C3_forbidden_amended (r : ORule) (c : List WItem) (slot : Slot) (n : Str)
    (hall : ∀ e ∈ c, e.name = n → is_item_forbidden r e.name (pystrip e.cat) = true) :
    n ∉ get_matching_items r c slot := by
  intro hmem
  have h := mem_bucket_iff (fun k m =>
    !is_item_forbidden r m k && (slotAllowed r slot m k || (allowedFor r slot).isEmpty)) c n
  obtain ⟨e, he, hname, hq⟩ := h.mp hmem
  rw [Bool.and_eq_true, Bool.not_eq_true'] at hq
  have hf := hall e he hname
  rw [hname] at hf
  rw [hf] at hq
  simp at hq

/-- C3 witness: the amended exclusion applied to a concrete wardrobe whose
only "blazer" entry has the forbidden category "formal". -/
theorem C3_forbidden_amended_witness :
    "blazer".data ∉
      get_matching_items formalForbidRule [⟨"blazer".data, "formal".data⟩] Slot.tops :=
  C3_forbidden_amended formalForbidRule [⟨"blazer".data, "formal".data⟩] Slot.tops
    "blazer".data (by decide)

/-- C7: when a slot's allowed list is empty, the slot bucket contains
exactly one occurrence of each non-forbidden closet entry (counted by name)
and nothing else. -/
theorem C7_empty_allowed (r : ORule) (c : List WItem) (slot : Slot)
    (h : allowedFor r slot = []) (n : Str) :
    (get_matching_items r c slot).count n
      = c.countP (fun e => e.name == n && !is_item_forbidden r e.name (pystrip e.cat)) := by
  have hcb := count_bucket (fun k m =>
    !is_item_forbidden r m k && (slotAllowed r slot m k || (allowedFor r slot).isEmpty)) c n
  refine Eq.trans (by exact hcb) ?_
  apply List.countP_congr
  intro e he
  simp only [slotAllowed, h, List.any_nil, List.isEmpty_nil, Bool.false_or, Bool.or_true,
    Bool.and_true]

/-- C7 witness: the exact-count property at a concrete two-entry wardrobe
whose entries share the name "tee". -/
theorem C7_empty_allowed_witness :
    (get_matching_items permissiveRule
        [⟨"tee".data, "casual".data⟩, ⟨"tee".data, "knits".data⟩] Slot.shoes).count "tee".data
      = ([⟨"tee".data, "casual".data⟩, ⟨"tee".data, "knits".data⟩] : List WItem).countP
          (fun e => e.name == "tee".data &&
            !is_item_forbidden permissiveRule e.name (pystrip e.cat)) :=
  C7_empty_allowed permissiveRule
    [⟨"tee".data, "casual".data⟩, ⟨"tee".data, "knits".data⟩] Slot.shoes rfl "tee".data

/-- C8, counterexample.  The dresses/sarees classification uses an
`elif`: the category "saree set" contains both "saree" and the dress
keyword "set", so the (non-forbidden) item is classified dress-type and
does not appear in the saree bucket, contradicting the claim that every
non-forbidden item whose category contains "saree"/"sari" reaches the saree
bucket regardless of what else the category contains. -/
theorem C8_dress_saree_counterexample :
    containsSub "saree".data (lowerStr "saree set".data) = true ∧
    allSarees permissiveRule [⟨"x".data, "saree set".data⟩] = [] ∧
    allDresses permissiveRule [⟨"x".data, "saree set".data⟩] = ["x".data] := by
  refine ⟨by decide, by decide, by decide⟩

/-- C8 (amended): a non-forbidden item is dress-type exactly when its
stripped category contains one of {dress, gown, frock, set, suit}; it lands
in the saree bucket exactly when its stripped category contains
"saree"/"sari" *and* contains no dress keyword (the `elif` gives dress
classification priority). -/
theorem C8_dress_saree_amended (r : ORule) (c : List WItem) (n : Str) :
    (n ∈ allDresses r c
      ↔ ∃ e ∈ c, e.name = n ∧ is_item_forbidden r e.name (pystrip e.cat) = false ∧
          isDressCat (pystrip e.cat) = true) ∧
    (n ∈ allSarees r c
      ↔ ∃ e ∈ c, e.name = n ∧ is_item_forbidden r e.name (pystrip e.cat) = false ∧
          isDressCat (pystrip e.cat) = false ∧ isSareeCat (pystrip e.cat) = true) := by
  constructor
  · have h := mem_bucket_iff (fun k m => !is_item_forbidden r m k && isDressCat k) c n
    constructor
    · intro hmem
      obtain ⟨e, he, hname, hq⟩ := h.mp hmem
      rw [Bool.and_eq_true, Bool.not_eq_true'] at hq
      refine ⟨e, he, hname, ?_, hq.2⟩
      rw [hname]
      exact hq.1
    · rintro ⟨e, he, hname, hforb, hdress⟩
      apply h.mpr
      refine ⟨e, he, hname, ?_⟩
      rw [Bool.and_eq_true, Bool.not_eq_true']
      subst hname
      exact ⟨hforb, hdress⟩
  · have h := mem_bucket_iff
      (fun k m => !is_item_forbidden r m k && !isDressCat k && isSareeCat k) c n
    constructor
    · intro hmem
      obtain ⟨e, he, hname, hq⟩ := h.mp hmem
      rw [Bool.and_eq_true, Bool.and_eq_true, Bool.not_eq_true', Bool.not_eq_true'] at hq
      refine ⟨e, he, hname, ?_, hq.1.2, hq.2⟩
      rw [hname]
      exact hq.1.1
    · rintro ⟨e, he, hname, hforb, hdress, hsaree⟩
      apply h.mpr
      refine ⟨e, he, hname, ?_⟩
      rw [Bool.and_eq_true, Bool.and_eq_true, Bool.not_eq_true', Bool.not_eq_true']
      subst hname
      exact ⟨⟨hforb, hdress⟩, hsaree⟩

/-! ## Claims about the occasion matcher -/

theorem any_congr {α : Type} {p q : α → Bool} :
    ∀ {l : List α}, (∀ a ∈ l, p a = q a) → l.any p = l.any q := by
  intro l
  induction l with
  | nil => intro _; rfl
  | cons a t ih =>
    intro h
    rw [List.any_cons, List.any_cons, h a (List.mem_cons_self a t),
      ih (fun b hb => h b (List.mem_cons_of_mem a hb))]

/-- With every configured keyword already lowercase, the code's keyword test
agrees with the spec's case-insensitive keyword test, occasion by
occasion. -/
theorem find?_keywords_congr (inp : Str) :
    ∀ l : List (Str × ORule), (∀ p ∈ l, ∀ k ∈ p.2.keywords, lowerStr k = k) →
      l.find? (fun p => p.2.keywords.any (fun k => containsSub k (lowerStr inp)))
        = l.find? (fun p => p.2.keywords.any (fun k => containsSub (lowerStr k) (lowerStr inp))) := by
  intro l
  induction l with
  | nil => intro _; rfl
  | cons p t ih =>
    intro h
    have hp : (p.2.keywords.any (fun k => containsSub k (lowerStr inp)))
        = (p.2.keywords.any (fun k => containsSub (lowerStr k) (lowerStr inp))) := by
      apply any_congr
      intro k hk
      rw [h p (List.mem_cons_self p t) k hk]
    rw [List.find?_cons, List.find?_cons, hp, ih (fun q hq => h q (List.mem_cons_of_mem p hq))]

/-- C6, counterexample.  The code lowercases only the input, not the
keyword, so a configured keyword containing an uppercase letter never
matches: with the wedding keyword "Wedding", the input "time for my
wedding" matches case-insensitively in the spec's sense, yet the matcher
falls through to the default occasion "casual" instead of returning
"wedding". -/
theorem C6_matcher_counterexample :
    containsSub (lowerStr "Wedding".data) (lowerStr "time for my wedding".data) = true ∧
    spec_match_occasion "time for my wedding".data capTable
      = some ("wedding".data, capRule) ∧
    match_occasion "time for my wedding".data capTable
      = some ("casual".data, casRule) := by
  refine ⟨by decide, by decide, by decide⟩

/-- C6 (amended): the matcher tests whether each configured keyword occurs
verbatim in the lowercased input, so it realizes the spec's
case-insensitive first-match contract exactly when every configured keyword
is already lowercase (keywords containing uppercase letters can never
match); under that proviso it returns the first keyword-matching occasion
in configuration order, with the configured default as fallback, and the
spec's wedding example selects the wedding occasion rather than the
default. -/
theorem C6_matcher_amended :
    (∀ (inp : Str) (t : OccTable), (∀ p ∈ t.occasions, ∀ k ∈ p.2.keywords, lowerStr k = k) →
      match_occasion inp t = spec_match_occasion inp t) ∧
    match_occasion "going to a wedding".data wedTable = some ("wedding".data, wedRule) := by
  constructor
  · intro inp t h
    rw [match_occasion, spec_match_occasion, find?_keywords_congr inp t.occasions h]
  · decide

/-- C6 witness: the code/spec agreement applied at the all-lowercase wedding
table. -/
theorem C6_matcher_amended_witness :
    match_occasion "going to a wedding".data wedTable
      = spec_match_occasion "going to a wedding".data wedTable :=
  C6_matcher_amended.1 "going to a wedding".data wedTable (by decide)

/-- C9, counterexample.  When no keyword matches and the designated default
occasion name is absent from the table, the lookup
`OCCASION_RULES["occasions"][default]` raises a `KeyError` (modelled as
`none`), so occasion matching is not total. -/
theorem C9_total_counterexample :
    match_occasion "hello".data noDefaultTable = none := by
  decide

/-- C9 (amended): occasion matching returns a result whenever some
configured keyword occurs in the lowercased input or the designated default
occasion name is present in the table (and wardrobe filtering, as embedded,
is a total function on all of its inputs); only a table missing its own
default, combined with an input matching no keyword, can make a request
fail. -/
theorem C9_total_amended (inp : Str) (t : OccTable)
    (h : (∃ p ∈ t.occasions, ∃ k ∈ p.2.keywords, containsSub k (lowerStr inp) = true) ∨
      ∃ p ∈ t.occasions, p.1 = t.default_occasion) :
    (match_occasion inp t).isSome = true := by
  rw [match_occasion]
  rcases hf : t.occasions.find? (fun p =>
      p.2.keywords.any (fun k => containsSub k (lowerStr inp))) with _ | p
  · rw [hf]
    show (t.occasions.find? (fun p => p.1 == t.default_occasion)).isSome = true
    rcases h with h | h
    · exfalso
      obtain ⟨p, hp, k, hk, hmatch⟩ := h
      rw [List.find?_eq_none] at hf
      exact hf p hp (List.any_eq_true.mpr ⟨k, hk, hmatch⟩)
    · rw [List.find?_isSome]
      obtain ⟨p, hp, hname⟩ := h
      exact ⟨p, hp, by rw [beq_iff_eq]; exact hname⟩
  · rw [hf]
    rfl

/-- C9 witness: totality at a concrete input matching the keyword "formal"
over the table whose designated default occasion is absent. -/
theorem C9_total_amended_witness :
    (match_occasion "a formal party".data noDefaultTable).isSome = true :=
  C9_total_amended "a formal party".data noDefaultTable (Or.inl (by decide))

end Wardrobe
